import Mathlib

/-!
Shallow embedding of the Feed Ranking and Cache Invalidation Engine of the
devoci.in API (feed, trending, role, engagement and cache services), together
with theorems settling the spec claims about it.

Numeric convention: JavaScript numbers are modelled over the rationals
(exact arithmetic; the claims at stake concern discrepancies far larger
than floating-point noise), except the gravity exponent of the trending
score, which is modelled over the reals via rpow.
-/

set_option maxHeartbeats 1000000

/-- A role/weight pair, as in the DynamicRole and TargetRole types of the
source (src/apps/api/src/types): a role tag with a numeric weight. -/
structure DynamicRole where
  role : String
  weight : ℚ
deriving DecidableEq, Repr

/-- JavaScript Math.round: round half toward positive infinity, that is,
the floor of x + 1/2. -/
def roundJS (x : ℚ) : ℤ := ⌊x + 1/2⌋

/-- Math.round(x * 100) / 100, used throughout roleService to keep two
decimal places. -/
def round2 (x : ℚ) : ℚ := (roundJS (x * 100) : ℚ) / 100

/-- One step of a stable insertion sort: the element is placed before the
first element that the Boolean comparison does not rank above it, matching
the stable Array.prototype.sort with a comparator.  For a descending sort
by key, lt x y means key x is strictly below key y. -/
def insertSorted {α : Type} (lt : α → α → Bool) (x : α) : List α → List α
  | [] => [x]
  | y :: ys => if lt x y then y :: insertSorted lt x ys else x :: y :: ys

/-- Stable insertion sort with a Boolean comparison (used with lt built
from a key, giving a stable descending sort by that key). -/
def sortWith {α : Type} (lt : α → α → Bool) : List α → List α
  | [] => []
  | x :: xs => insertSorted lt x (sortWith lt xs)

/-- Descending weight order on role entries, as used by the comparator
(a, b) of the source that returns b.weight - a.weight. -/
def weightLt (a b : DynamicRole) : Bool := decide (a.weight < b.weight)

/-- Array.prototype.find on a role list: the first entry carrying the
given role tag. -/
def findRole (role : String) : List DynamicRole → Option DynamicRole
  | [] => none
  | r :: rest => if r.role == role then some r else findRole role rest

/-- First-match lookup in an association list keyed by strings. -/
def lookupBy {α : Type} (key : String) : List (String × α) → Option α
  | [] => none
  | kv :: rest => if kv.1 == key then some kv.2 else lookupBy key rest

/-- The role tags accepted by roleService (VALID_ROLES in the source). -/
def VALID_ROLES : List String :=
  ["FRONTEND", "BACKEND", "DEVOPS", "ML", "MOBILE", "DATA", "SECURITY"]

namespace roleService

/-- roleService.computeUserRoles, from the point where the engagement
aggregation rows are in hand: the input list pairs each role tag with the
summed engagement weight the aggregation produced for it.  The source then
normalises by the grand total, keeps the valid roles, rounds each weight to
two decimals, prunes weights below 0.05 and sorts by weight descending. -/
def computeUserRolesFromAgg (engagements : List (String × ℚ)) : List DynamicRole :=
  if engagements.isEmpty then []
  else
    let totalWeight : ℚ := (engagements.map (·.2)).sum
    if totalWeight = 0 then []
    else
      sortWith weightLt
        ((((engagements.filter (fun e => VALID_ROLES.contains e.1)).map
            (fun e => DynamicRole.mk e.1 (round2 (e.2 / totalWeight)))).filter
          (fun r => decide ((5 : ℚ)/100 ≤ r.weight))))

/-- The previous-profile lookup of smoothRoles: prevMap.get(role) with 0 as
the default.  A JavaScript Map built from a list keeps the last entry for a
duplicated key, hence the lookup on the reversed list. -/
def prevWeightOf (previous : List DynamicRole) (role : String) : ℚ :=
  (((findRole role previous.reverse).map (·.weight)).getD 0)

/-- The decay-only loop of smoothRoles: roles present in the previous
profile but absent from the smoothed list are appended with weight
previous * (1 - 0.7), rounded, when that decayed weight is at least 0.05. -/
def addDecayed (smoothed previous : List DynamicRole) : List DynamicRole :=
  previous.foldl
    (fun acc p =>
      if acc.any (fun s => s.role == p.role) then acc
      else if decide ((5 : ℚ)/100 ≤ p.weight * (3/10)) then
        acc ++ [DynamicRole.mk p.role (round2 (p.weight * (3/10)))]
      else acc)
    smoothed

/-- roleService.smoothRoles: exponential smoothing with factor 0.7 of the
computed profile against the previous one, decay-only retention of
disappeared roles, renormalisation by the resulting total and a descending
sort, every weight rounded to two decimals. -/
def smoothRoles (previous computed : List DynamicRole) : List DynamicRole :=
  if previous.isEmpty then computed
  else
    let smoothed := computed.map (fun r =>
      DynamicRole.mk r.role
        (round2 ((7/10) * r.weight + (1 - 7/10) * prevWeightOf previous r.role)))
    let withDecayed := addDecayed smoothed previous
    let total : ℚ := (withDecayed.map (·.weight)).sum
    sortWith weightLt
      (withDecayed.map (fun r => DynamicRole.mk r.role (round2 (r.weight / total))))

end roleService

/-- The Redis-backed cache, modelled as an association list from keys to
serialized values (first binding wins on lookup; the operations below keep
keys unique). -/
def CacheState : Type := List (String × String)

/-- cache.get: lookup of a key. -/
def cacheGet (s : CacheState) (key : String) : Option String :=
  lookupBy key s

/-- cache.set: bind a key to a value (TTL is not represented; no claim at
stake depends on expiry). -/
def cacheSet (s : CacheState) (key value : String) : CacheState :=
  (key, value) :: List.filter (fun kv => !(kv.1 == key)) s

/-- cache.del: remove a single exact key. -/
def cacheDel (s : CacheState) (key : String) : CacheState :=
  List.filter (fun kv => !(kv.1 == key)) s

/-- The feed-page cache key builder cacheKeys.userFeed of src/db/redis.ts. -/
def userFeedKey (userId : String) (page : ℕ) : String :=
  "feed:user:" ++ userId ++ ":page:" ++ toString page

/-- cacheKeys.article. -/
def articleCacheKey (articleId : String) : String :=
  "article:" ++ articleId ++ ":data"

/-- cacheKeys.trending, shared by feedService.getTrending and
trendingService.getTrending / computeAllPeriods. -/
def trendingCacheKey (days : ℕ) : String :=
  "trending:articles:" ++ toString days ++ "days"

namespace articleService

/-- The cache effect of articleService.toggleSave: after the saves counter
update, the source deletes only the single-article cache key. -/
def toggleSaveCache (articleId : String) (s : CacheState) : CacheState :=
  cacheDel s (articleCacheKey articleId)

end articleService

namespace engagementService

/-- The cache effect of engagementService.saveArticle: the source logs and
runs gamification checks but performs no cache operation. -/
def saveArticleCache (_userId _articleId : String) (s : CacheState) : CacheState := s

/-- The cache effect of engagementService.shareArticle: the source appends
a SHARE engagement row but performs no cache operation. -/
def shareArticleCache (_userId _articleId : String) (s : CacheState) : CacheState := s

end engagementService

/-- The result record of roleService.updateUserRoles. -/
structure UserRoleUpdate where
  userId : String
  previousRoles : List DynamicRole
  newRoles : List DynamicRole
  engagementsProcessed : ℕ
deriving DecidableEq, Repr

namespace roleService

/-- roleService.updateUserRoles, with the two database reads supplied as
arguments: prevRoles is none when User.findById finds no user, otherwise
the dynamicRoles field (defaulted to empty); computed is the result of
computeUserRoles.  On success the source persists the smoothed roles and
deletes the exact cache key "feed:user:" ++ userId (no pattern, no page
suffix), then returns the update record. -/
def updateUserRoles : String → Option (List DynamicRole) → List DynamicRole →
    CacheState → Option UserRoleUpdate × CacheState
  | _, none, _, s => (none, s)
  | userId, some previous, computed, s =>
    if computed.isEmpty then (none, s)
    else
      (some ⟨userId, previous, smoothRoles previous computed, computed.length⟩,
       cacheDel s ("feed:user:" ++ userId))

end roleService

/-- The user fields read by the relevance scorer (LeanUser): the dynamic
role profile and the topic preferences, both possibly missing. -/
structure FeedUser where
  dynamicRoles : Option (List DynamicRole)
  topics : Option (List String)
deriving DecidableEq, Repr

/-- The article fields read by the relevance scorer (FeedArticle):
targetRoles and tags possibly missing, publishedAt as an optional epoch
timestamp in milliseconds, views and saves possibly missing. -/
structure FeedArticle where
  id : String
  targetRoles : Option (List DynamicRole)
  tags : Option (List String)
  publishedAt : Option ℚ
  views : Option ℚ
  saves : Option ℚ
deriving DecidableEq, Repr

namespace feedService

/-- feedService.calculateRoleAlignment: sum over the user roles of the
product of the user weight with the weight of the first article role with
the same tag, capped at 1 by Math.min. -/
def calculateRoleAlignment (userRoles articleRoles : List DynamicRole) : ℚ :=
  min
    (userRoles.foldl
      (fun score ur =>
        (findRole ur.role articleRoles).elim score
          (fun ar => score + ur.weight * ar.weight))
      0)
    1

/-- The fuzzy tag comparison of calculateTagMatch: case-insensitive
substring containment in either direction. -/
def tagFuzzyMatch (topic tag : String) : Bool :=
  decide (topic.toLower.toList <:+: tag.toLower.toList) ||
  decide (tag.toLower.toList <:+: topic.toLower.toList)

/-- feedService.calculateTagMatch: the number of user topics fuzzily
matching some article tag, divided by the larger list length; 0 when
either list is empty. -/
def calculateTagMatch (userTopics articleTags : List String) : ℚ :=
  if userTopics.isEmpty || articleTags.isEmpty then 0
  else
    ((userTopics.filter (fun topic => articleTags.any (tagFuzzyMatch topic))).length : ℚ) /
      (max userTopics.length articleTags.length : ℕ)

/-- feedService.calculateFreshness: a step function of the article age in
days at the evaluation instant now (epoch milliseconds); a missing publish
date yields 0.5. -/
def calculateFreshness (now : ℚ) : Option ℚ → ℚ
  | none => 1/2
  | some published =>
    let daysOld := (now - published) / (1000 * 60 * 60 * 24)
    if daysOld ≤ 7 then 1
    else if daysOld ≤ 14 then 8/10
    else if daysOld ≤ 30 then 1/2
    else 1/5

/-- feedService.calculateEngagement: views scaled by 1000 and saves by
100, each capped at 1 by Math.min, combined with weights 0.4 and 0.6;
missing counters default to 0. -/
def calculateEngagement (article : FeedArticle) : ℚ :=
  let views := article.views.getD 0
  let saves := article.saves.getD 0
  min (views / 1000) 1 * (4/10) + min (saves / 100) 1 * (6/10)

/-- feedService.calculateRelevanceScore: the weighted sum of the four
component scores, times 100 and rounded.  The source reads the clock
through Date.now() inside calculateFreshness; the embedding passes that
instant explicitly as now. -/
def calculateRelevanceScore (user : FeedUser) (article : FeedArticle) (now : ℚ) : ℤ :=
  let roleScore := calculateRoleAlignment (user.dynamicRoles.getD [])
    (article.targetRoles.getD [])
  let tagScore := calculateTagMatch (user.topics.getD []) (article.tags.getD [])
  let freshnessScore := calculateFreshness now article.publishedAt
  let engagementScore := calculateEngagement article
  roundJS ((roleScore * (4/10) + tagScore * (3/10) + freshnessScore * (2/10) +
    engagementScore * (1/10)) * 100)

end feedService

/-- An article paired with its relevance score, as produced by the
logged-in branch of getPersonalizedFeed. -/
structure ScoredArticle where
  article : FeedArticle
  relevanceScore : ℤ
deriving DecidableEq, Repr

/-- The outcome of a feed request: the anonymous branch returns unscored
articles, the logged-in branch scored ones. -/
inductive FeedResult where
  | anonymous (articles : List FeedArticle)
  | scored (articles : List ScoredArticle)
deriving DecidableEq, Repr

namespace feedService

/-- feedService.getPersonalizedFeed with its two awaited cache operations
made explicit: cacheGetRes is the outcome of cache.get on the page key
(error, hit, or miss) and cacheSetRes the outcome of cache.set; articles
is the candidate list the database query returned.  Each await on a failed
cache operation rethrows, so an error outcome short-circuits the whole
call; the anonymous branch never touches the cache. -/
def getPersonalizedFeed : Option FeedUser → ℕ →
    Except Unit (Option (List ScoredArticle)) → Except Unit Unit →
    List FeedArticle → ℚ → Except Unit FeedResult
  | none, limit, _, _, articles, _ => .ok (.anonymous (articles.take limit))
  | some _, _, .error e, _, _, _ => .error e
  | some _, _, .ok (some cached), _, _, _ => .ok (.scored cached)
  | some _, _, .ok none, .error e, _, _ => .error e
  | some u, limit, .ok none, .ok _, articles, now =>
    .ok (.scored
      ((sortWith (fun a b => decide (a.relevanceScore < b.relevanceScore))
        (articles.map (fun a => ScoredArticle.mk a (calculateRelevanceScore u a now)))).take
        limit))

end feedService

/-- An Engagement document: the fields viewArticle reads and writes. -/
structure EngagementRow where
  userId : String
  articleId : String
  type : String
  createdAt : ℤ
  updatedAt : ℤ
deriving DecidableEq, Repr

/-- The database state touched by engagementService.viewArticle: the
engagement collection and the article collection restricted to the id and
views fields. -/
structure EngagementDB where
  engagements : List EngagementRow
  articles : List (String × ℕ)
deriving DecidableEq, Repr

/-- The filter of the viewArticle upsert: same user, same article, type
VIEW. -/
def isViewRowOf (userId articleId : String) (e : EngagementRow) : Bool :=
  e.userId == userId && e.articleId == articleId && e.type == "VIEW"

/-- Engagement.findOneAndUpdate with upsert: update the first matching
document (setting updatedAt), or append a fresh one when none matches. -/
def upsertViewRow (userId articleId : String) (now : ℤ) :
    List EngagementRow → List EngagementRow
  | [] => [⟨userId, articleId, "VIEW", now, now⟩]
  | e :: es =>
    if isViewRowOf userId articleId e then { e with updatedAt := now } :: es
    else e :: upsertViewRow userId articleId now es

/-- Article.findByIdAndUpdate with an increment of views: bump the first
article with the given id, a no-op when the id is absent. -/
def incViewsFirst (articleId : String) : List (String × ℕ) → List (String × ℕ)
  | [] => []
  | a :: rest =>
    if a.1 == articleId then (a.1, a.2 + 1) :: rest
    else a :: incViewsFirst articleId rest

namespace engagementService

/-- The database effect of engagementService.viewArticle: upsert the VIEW
engagement row for the pair, then atomically increment the article views
counter.  The subsequent gamification calls touch neither collection. -/
def viewArticle (userId articleId : String) (now : ℤ) (db : EngagementDB) :
    EngagementDB :=
  { engagements := upsertViewRow userId articleId now db.engagements,
    articles := incViewsFirst articleId db.articles }

end engagementService

/-- The number of VIEW engagement rows stored for a (user, article) pair. -/
def countViewRows (userId articleId : String) (es : List EngagementRow) : ℕ :=
  (es.filter (isViewRowOf userId articleId)).length

/-- The views counter of an article (0 when the id is absent). -/
def viewsOf (articleId : String) (articles : List (String × ℕ)) : ℕ :=
  (lookupBy articleId articles).getD 0

/-- An article as read by the two trending implementations. -/
structure TrendArticle where
  id : String
  publishedAt : ℚ
  qualityScore : ℚ
  isActive : Bool
  views : ℚ
  saves : ℚ
  shares : ℚ
deriving DecidableEq, Repr

namespace trendingService

/-- trendingService.calculateScore: the gravity formula
(views + 3 saves + 5 shares) / (hoursOld + 2) ^ 1.8, over the reals. -/
noncomputable def calculateScore (views saves shares hoursOld : ℝ) : ℝ :=
  (views * 1 + saves * 3 + shares * 5) / (hoursOld + 2) ^ (1.8 : ℝ)

/-- The match stage of trendingService.computeTrending: published within
the window, active, qualityScore at least 5. -/
def trendingEligible (now : ℚ) (days : ℚ) (a : TrendArticle) : Bool :=
  decide (now - days * (24 * 60 * 60 * 1000) ≤ a.publishedAt) && a.isActive &&
    decide ((5 : ℚ) ≤ a.qualityScore)

/-- trendingService.computeTrending: filter eligible articles, rank by the
gravity score with hoursOld recomputed from now, take the top limit. -/
noncomputable def computeTrending (corpus : List TrendArticle) (now : ℚ)
    (days : ℚ) (limit : ℕ) : List TrendArticle :=
  (sortWith
      (fun a b =>
        decide
          (calculateScore a.views a.saves a.shares
              (((now - a.publishedAt) / (1000 * 60 * 60) : ℚ) : ℝ) <
            calculateScore b.views b.saves b.shares
              (((now - b.publishedAt) / (1000 * 60 * 60) : ℚ) : ℝ)))
      (corpus.filter (trendingEligible now days))).take limit

end trendingService

namespace feedService

/-- The filter of feedService.getTrending: published within the window,
qualityScore at least 7, active. -/
def feedTrendingEligible (now : ℚ) (days : ℚ) (a : TrendArticle) : Bool :=
  decide (now - days * (24 * 60 * 60 * 1000) ≤ a.publishedAt) &&
    decide ((7 : ℚ) ≤ a.qualityScore) && a.isActive

/-- The database sort of feedService.getTrending: views descending, then
saves descending. -/
def viewsSavesLt (a b : TrendArticle) : Bool :=
  decide (a.views < b.views) || (decide (a.views = b.views) && decide (a.saves < b.saves))

/-- The compute path of feedService.getTrending: filter, sort by views
then saves descending, take the top limit. -/
def getTrendingCompute (corpus : List TrendArticle) (now : ℚ) (days : ℚ)
    (limit : ℕ) : List TrendArticle :=
  (sortWith viewsSavesLt (corpus.filter (feedTrendingEligible now days))).take limit

end feedService

/-! Helper lemmas. -/

/-- Deleting one key leaves every other key untouched. -/
theorem cacheGet_cacheDel_ne (s : CacheState) (key k : String) (h : k ≠ key) :
    cacheGet (cacheDel s key) k = cacheGet s k := by
  induction s with
  | nil => rfl
  | cons kv rest ih =>
    simp only [cacheDel, cacheGet, List.filter_cons] at *
    by_cases hkv : kv.1 = key
    · have hb : (!(kv.1 == key)) = false := by simp [hkv]
      rw [hb]
      have hbk : (kv.1 == k) = false := by
        simp only [beq_eq_false_iff_ne, ne_eq, hkv]
        exact fun he => h he.symm
      simp only [if_neg Bool.false_ne_true, lookupBy, hbk, Bool.false_eq_true, if_false]
      exact ih
    · have hb : (!(kv.1 == key)) = true := by simp [hkv]
      rw [hb, if_pos rfl]
      simp only [lookupBy]
      by_cases hbk : kv.1 = k
      · simp [hbk]
      · have hf : (kv.1 == k) = false := by simp [hbk]
        simp only [hf, Bool.false_eq_true, if_false]
        exact ih

/-- Membership is preserved by sorted insertion. -/
theorem mem_insertSorted {α : Type} (lt : α → α → Bool) (x y : α) (l : List α) :
    y ∈ insertSorted lt x l ↔ y = x ∨ y ∈ l := by
  induction l with
  | nil => simp [insertSorted]
  | cons z zs ih =>
    by_cases h : lt x z
    · simp only [insertSorted, h, if_true, List.mem_cons, ih]
      try tauto
    · simp only [insertSorted, h, Bool.false_eq_true, if_false, List.mem_cons]
      try tauto

/-- Sorting preserves membership. -/
theorem mem_sortWith {α : Type} (lt : α → α → Bool) (y : α) (l : List α) :
    y ∈ sortWith lt l ↔ y ∈ l := by
  induction l with
  | nil => simp [sortWith]
  | cons z zs ih => simp [sortWith, mem_insertSorted, ih]

/-! Claim theorems. -/

/-- C1 (corrected): articleService.toggleSave deletes only the
single-article cache key, so every other key — in particular any feed page
key — is left untouched; engagementService.saveArticle and shareArticle
perform no cache deletion at all.  Hence no save or share mutation removes
the key feed:user:u:page:0. -/
theorem C1_mutations_touch_only_article_key (s : CacheState) (u a k : String)
    (hk : k ≠ articleCacheKey a) :
    cacheGet (articleService.toggleSaveCache a s) k = cacheGet s k ∧
    engagementService.saveArticleCache u a s = s ∧
    engagementService.shareArticleCache u a s = s :=
  ⟨cacheGet_cacheDel_ne s (articleCacheKey a) k hk, rfl, rfl⟩

/-- Witness for C1: a concrete cache holding the page-0 feed key of user
u1; toggling a save on article a1 leaves that key readable, and the
engagement-service save and share paths leave the cache unchanged. -/
theorem C1_mutations_touch_only_article_key_witness :
    cacheGet
        (articleService.toggleSaveCache "a1" [(userFeedKey "u1" 0, "page")])
        (userFeedKey "u1" 0) =
      cacheGet [(userFeedKey "u1" 0, "page")] (userFeedKey "u1" 0) ∧
    engagementService.saveArticleCache "u1" "a1" [(userFeedKey "u1" 0, "page")] =
      [(userFeedKey "u1" 0, "page")] ∧
    engagementService.shareArticleCache "u1" "a1" [(userFeedKey "u1" 0, "page")] =
      [(userFeedKey "u1" 0, "page")] :=
  C1_mutations_touch_only_article_key [(userFeedKey "u1" 0, "page")] "u1" "a1"
    (userFeedKey "u1" 0) (by decide)

/-- Counterexample for C1 as stated: after toggleSave(a1) — the operation
behind the save mutation — the key feed:user:u1:page:0 is still present
(and save/share in engagementService do not touch the cache either), so
the key is not absent after the mutation. -/
theorem C1_feed_page_key_survives_counterexample :
    cacheGet
        (articleService.toggleSaveCache "a1" [(userFeedKey "u1" 0, "page")])
        (userFeedKey "u1" 0) = some "page" ∧
    cacheGet
        (engagementService.saveArticleCache "u1" "a1" [(userFeedKey "u1" 0, "page")])
        (userFeedKey "u1" 0) = some "page" ∧
    cacheGet
        (engagementService.shareArticleCache "u1" "a1" [(userFeedKey "u1" 0, "page")])
        (userFeedKey "u1" 0) = some "page" := by
  refine ⟨?_, ?_, ?_⟩ <;>
    simp [articleService.toggleSaveCache, engagementService.saveArticleCache,
      engagementService.shareArticleCache, cacheDel, cacheGet, lookupBy,
      userFeedKey, articleCacheKey]

/-- C2 (code bug): updateUserRoles is meant to invalidate the feed cache of
the user, but it deletes only the exact key feed:user:u — a key under
which no feed page is ever stored — so the page keys feed:user:u:page:n
survive the update.  Evaluated at the failing input: user u1 with a cached
page-0 entry and a nonempty computed profile, the update returns a result
yet the page-0 entry is still readable afterwards. -/
theorem C2_feed_pages_survive_role_update :
    (roleService.updateUserRoles "u1" (some []) [⟨"FRONTEND", 1⟩]
        [(userFeedKey "u1" 0, "page")]).1.isSome = true ∧
    cacheGet
        (roleService.updateUserRoles "u1" (some []) [⟨"FRONTEND", 1⟩]
          [(userFeedKey "u1" 0, "page")]).2
        (userFeedKey "u1" 0) = some "page" := by
  constructor
  · simp [roleService.updateUserRoles]
  · simp [roleService.updateUserRoles, cacheDel, cacheGet, lookupBy, userFeedKey]

/-- C3 (corrected): a failed cache operation inside getPersonalizedFeed is
not treated as a cache miss; the rejection propagates to the caller.  Both
awaited operations behave this way: a failed cache.get short-circuits the
call before the database is consulted, and a failed cache.set after
scoring discards the computed feed and surfaces the error. -/
theorem C3_cache_failure_propagates (u : FeedUser) (limit : ℕ)
    (setRes : Except Unit Unit) (articles : List FeedArticle) (now : ℚ) :
    feedService.getPersonalizedFeed (some u) limit (.error ()) setRes articles now =
      .error () ∧
    feedService.getPersonalizedFeed (some u) limit (.ok none) (.error ()) articles now =
      .error () :=
  ⟨rfl, rfl⟩

/-- Counterexample for C3 as stated: a logged-in request with a failing
cache read and a nonempty article corpus returns an error rather than a
feed computed from the article source. -/
theorem C3_cache_failure_counterexample :
    feedService.getPersonalizedFeed (some ⟨none, none⟩) 20 (.error ()) (.ok ())
      [⟨"a1", none, none, none, none, none⟩] 0 = .error () := rfl

/-- Mapping a function that fixes every member is the identity. -/
theorem map_id_of_forall {α : Type} (l : List α) (f : α → α) (h : ∀ a ∈ l, f a = a) :
    l.map f = l := by
  induction l with
  | nil => rfl
  | cons x xs ih =>
    simp only [List.map_cons, h x (List.mem_cons_self x xs),
      ih (fun a ha => h a (List.mem_cons_of_mem x ha))]

/-- With pairwise-distinct role tags, findRole returns the member itself. -/
theorem findRole_self (l : List DynamicRole) (hnd : (l.map (·.role)).Nodup)
    (r : DynamicRole) (hr : r ∈ l) : findRole r.role l = some r := by
  induction l with
  | nil => cases hr
  | cons x xs ih =>
    simp only [List.map_cons, List.nodup_cons] at hnd
    rcases List.mem_cons.mp hr with rfl | hmem
    · simp [findRole]
    · have hx : (x.role == r.role) = false := by
        simp only [beq_eq_false_iff_ne, ne_eq]
        intro he
        exact hnd.1 (he ▸ List.mem_map_of_mem (·.role) hmem)
      simp only [findRole, hx, Bool.false_eq_true, if_false]
      exact ih hnd.2 hmem

/-- With pairwise-distinct role tags, the previous-weight lookup of a
member returns its own weight. -/
theorem prevWeightOf_self (p : List DynamicRole) (hnd : (p.map (·.role)).Nodup)
    (r : DynamicRole) (hr : r ∈ p) : roleService.prevWeightOf p r.role = r.weight := by
  have hrev : (p.reverse.map (·.role)).Nodup := by
    rw [List.map_reverse]
    exact List.nodup_reverse.mpr hnd
  have := findRole_self p.reverse hrev r (List.mem_reverse.mpr hr)
  simp [roleService.prevWeightOf, this]

/-- The decay loop is the identity when every previous role already occurs
in the smoothed list. -/
theorem addDecayed_self (smoothed previous : List DynamicRole)
    (h : ∀ p ∈ previous, (smoothed.any (fun s => s.role == p.role)) = true) :
    roleService.addDecayed smoothed previous = smoothed := by
  induction previous with
  | nil => rfl
  | cons q qs ih =>
    have hq := h q (List.mem_cons_self q qs)
    simp only [roleService.addDecayed, List.foldl_cons, hq, if_true] at *
    exact ih (fun a ha => h a (List.mem_cons_of_mem q ha))

/-- Insertion in front of a smaller-or-equal head is a plain cons. -/
theorem insertSorted_weightLt_cons (x y : DynamicRole) (ys : List DynamicRole)
    (h : y.weight ≤ x.weight) :
    insertSorted weightLt x (y :: ys) = x :: y :: ys := by
  simp [insertSorted, weightLt, not_lt.mpr h]

/-- A list already sorted by non-increasing weight is fixed by the sort. -/
theorem sortWith_weightLt_sorted (l : List DynamicRole)
    (h : List.Pairwise (fun a b => b.weight ≤ a.weight) l) :
    sortWith weightLt l = l := by
  induction l with
  | nil => rfl
  | cons x xs ih =>
    have hp := List.pairwise_cons.mp h
    show insertSorted weightLt x (sortWith weightLt xs) = x :: xs
    rw [ih hp.2]
    cases xs with
    | nil => rfl
    | cons y ys => exact insertSorted_weightLt_cons x y ys (hp.1 y (List.mem_cons_self y ys))

/-- C4 (corrected, the part that holds): every entry of a role list
returned by computeUserRoles has weight at least 0.05 — the pruning filter
runs after the rounding, so the bound survives into the output.  The other
halves of the claim fail: the weights need not sum to 1 (pruning happens
after normalisation and rounding truncates), and smoothRoles can emit
weights below 0.05 after its final renormalisation. -/
theorem C4_computed_weights_ge_min (agg : List (String × ℚ)) (r : DynamicRole)
    (hr : r ∈ roleService.computeUserRolesFromAgg agg) : (5 : ℚ)/100 ≤ r.weight := by
  by_cases h1 : agg.isEmpty
  · simp [roleService.computeUserRolesFromAgg, h1] at hr
  · by_cases h2 : (agg.map (·.2)).sum = 0
    · simp [roleService.computeUserRolesFromAgg, h1, h2] at hr
    · simp only [roleService.computeUserRolesFromAgg, h1, h2, Bool.false_eq_true,
        if_false] at hr
      rw [mem_sortWith] at hr
      exact of_decide_eq_true (List.mem_filter.mp hr).2

/-- Witness for C4: the aggregation rows FRONTEND 96, BACKEND 4 produce
the single entry FRONTEND 0.96, whose weight the theorem bounds below by
0.05. -/
theorem C4_computed_weights_ge_min_witness :
    DynamicRole.mk "FRONTEND" (24/25) ∈
      roleService.computeUserRolesFromAgg [("FRONTEND", 96), ("BACKEND", 4)] ∧
    (5 : ℚ)/100 ≤ (DynamicRole.mk "FRONTEND" (24/25)).weight := by
  have hm : roleService.computeUserRolesFromAgg [("FRONTEND", 96), ("BACKEND", 4)] =
      [DynamicRole.mk "FRONTEND" (24/25)] := by
    norm_num [roleService.computeUserRolesFromAgg, round2, roundJS, sortWith,
      insertSorted, weightLt, VALID_ROLES, List.sum]
  have hmem : DynamicRole.mk "FRONTEND" (24/25) ∈
      roleService.computeUserRolesFromAgg [("FRONTEND", 96), ("BACKEND", 4)] := by
    rw [hm]; exact List.mem_singleton.mpr rfl
  exact ⟨hmem, C4_computed_weights_ge_min _ _ hmem⟩

/-- Counterexample for C4 as stated: the aggregation rows FRONTEND 96,
BACKEND 4 yield a nonempty profile whose weights sum to 0.96 — off one by
0.04, far beyond floating-point tolerance, because the 0.04 entry is
pruned after normalisation with no renormalisation; and smoothing the
profile BACKEND 1 with the computed profile FRONTEND 0.05, BACKEND 0.95
emits FRONTEND 0.04, an entry below the 0.05 floor. -/
theorem C4_invariant_counterexample :
    (roleService.computeUserRolesFromAgg [("FRONTEND", 96), ("BACKEND", 4)] ≠ [] ∧
      ((roleService.computeUserRolesFromAgg [("FRONTEND", 96), ("BACKEND", 4)]).map
          (·.weight)).sum = 24/25) ∧
    DynamicRole.mk "FRONTEND" (1/25) ∈
      roleService.smoothRoles [⟨"BACKEND", 1⟩] [⟨"FRONTEND", 1/20⟩, ⟨"BACKEND", 19/20⟩] ∧
    (1 : ℚ)/25 < 5/100 := by
  have hm : roleService.computeUserRolesFromAgg [("FRONTEND", 96), ("BACKEND", 4)] =
      [DynamicRole.mk "FRONTEND" (24/25)] := by
    norm_num [roleService.computeUserRolesFromAgg, round2, roundJS, sortWith,
      insertSorted, weightLt, VALID_ROLES, List.sum]
  refine ⟨⟨by rw [hm]; simp, by rw [hm]; simp⟩, ?_, by norm_num⟩
  simp [roleService.smoothRoles, roleService.prevWeightOf, roleService.addDecayed,
    round2, roundJS, sortWith, insertSorted, weightLt, findRole]
  norm_num

/-- C5 (corrected): smoothRoles(p, p) = p holds for profiles in the form
the engine itself persists — pairwise-distinct role tags, weights that are
exact multiples of 0.01 (round2-stable), summing to 1, sorted by
non-increasing weight.  Outside that form the two-decimal rounding, the
renormalisation, or the sort move the profile, so the unrestricted claim
fails. -/
theorem C5_smooth_fixed_point (p : List DynamicRole)
    (hnd : (p.map (·.role)).Nodup)
    (hw : ∀ r ∈ p, round2 r.weight = r.weight)
    (hsum : (p.map (·.weight)).sum = 1)
    (hsorted : List.Pairwise (fun a b => b.weight ≤ a.weight) p) :
    roleService.smoothRoles p p = p := by
  cases hp : p.isEmpty
  case true =>
    rw [List.isEmpty_iff.mp hp]
    rfl
  case false =>
    have hsm : p.map (fun r =>
        DynamicRole.mk r.role
          (round2 ((7/10) * r.weight + (1 - 7/10) * roleService.prevWeightOf p r.role))) = p := by
      apply map_id_of_forall
      intro r hr
      rw [prevWeightOf_self p hnd r hr]
      have harith : (7 : ℚ)/10 * r.weight + (1 - 7/10) * r.weight = r.weight := by ring
      rw [harith, hw r hr]
    have hdec : roleService.addDecayed p p = p :=
      addDecayed_self p p (fun q hq => List.any_eq_true.mpr ⟨q, hq, by simp⟩)
    have hnorm : p.map (fun r => DynamicRole.mk r.role (round2 (r.weight / 1))) = p := by
      apply map_id_of_forall
      intro r hr
      rw [div_one, hw r hr]
    unfold roleService.smoothRoles
    rw [hp]
    simp only [Bool.false_eq_true, if_false, hsm, hdec, hsum, hnorm]
    exact sortWith_weightLt_sorted p hsorted

/-- Witness for C5: the profile FRONTEND 0.6, BACKEND 0.4 is in canonical
form, and smoothing it against itself returns it unchanged. -/
theorem C5_smooth_fixed_point_witness :
    roleService.smoothRoles [⟨"FRONTEND", 6/10⟩, ⟨"BACKEND", 4/10⟩]
      [⟨"FRONTEND", 6/10⟩, ⟨"BACKEND", 4/10⟩] =
      [⟨"FRONTEND", 6/10⟩, ⟨"BACKEND", 4/10⟩] := by
  apply C5_smooth_fixed_point
  · simp
  · intro r hr
    rcases List.mem_cons.mp hr with rfl | hr2
    · norm_num [round2, roundJS]
    · rcases List.mem_cons.mp hr2 with rfl | hr3
      · norm_num [round2, roundJS]
      · cases hr3
  · norm_num
  · simp only [List.pairwise_cons]
    refine ⟨?_, ?_, List.Pairwise.nil⟩
    · intro b hb
      rcases List.mem_cons.mp hb with rfl | hb2
      · norm_num
      · cases hb2
    · intro b hb
      cases hb

/-- Counterexample for C5 as stated: the profile with three equal weights
of 1/3 sums to 1 and is a legitimate role profile, yet smoothing it
against itself rounds every weight to 0.33 and so does not return it. -/
theorem C5_smooth_not_fixed_counterexample :
    roleService.smoothRoles
        [⟨"FRONTEND", 1/3⟩, ⟨"BACKEND", 1/3⟩, ⟨"DEVOPS", 1/3⟩]
        [⟨"FRONTEND", 1/3⟩, ⟨"BACKEND", 1/3⟩, ⟨"DEVOPS", 1/3⟩] ≠
      [⟨"FRONTEND", 1/3⟩, ⟨"BACKEND", 1/3⟩, ⟨"DEVOPS", 1/3⟩] := by
  simp [roleService.smoothRoles, roleService.prevWeightOf, roleService.addDecayed,
    round2, roundJS, sortWith, insertSorted, weightLt, findRole]
  norm_num

/-- A successful findRole yields a member of the list. -/
theorem findRole_mem (role : String) (l : List DynamicRole) (r : DynamicRole)
    (h : findRole role l = some r) : r ∈ l := by
  induction l with
  | nil => cases h
  | cons x xs ih =>
    cases hx : (x.role == role)
    · simp only [findRole, hx, Bool.false_eq_true, if_false] at h
      exact List.mem_cons_of_mem x (ih h)
    · simp only [findRole, hx, if_true] at h
      exact (Option.some.inj h) ▸ List.mem_cons_self x xs

/-- The role-alignment fold stays nonnegative on nonnegative weights. -/
theorem roleAlign_foldl_nonneg (userRoles articleRoles : List DynamicRole) (init : ℚ)
    (hinit : 0 ≤ init)
    (hu : ∀ r ∈ userRoles, 0 ≤ r.weight) (ha : ∀ r ∈ articleRoles, 0 ≤ r.weight) :
    0 ≤ userRoles.foldl
      (fun score ur =>
        (findRole ur.role articleRoles).elim score
          (fun ar => score + ur.weight * ar.weight))
      init := by
  induction userRoles generalizing init with
  | nil => exact hinit
  | cons x xs ih =>
    simp only [List.foldl_cons]
    apply ih
    · cases hfind : findRole x.role articleRoles with
      | none => simpa [hfind] using hinit
      | some ar =>
        simp only [hfind, Option.elim_some]
        have har : 0 ≤ ar.weight := ha ar (findRole_mem _ _ _ hfind)
        have hxw : 0 ≤ x.weight := hu x (List.mem_cons_self x xs)
        positivity
    · exact fun r hr => hu r (List.mem_cons_of_mem x hr)

/-- Role alignment lies in the unit interval for nonnegative weights. -/
theorem calculateRoleAlignment_bounds (userRoles articleRoles : List DynamicRole)
    (hu : ∀ r ∈ userRoles, 0 ≤ r.weight) (ha : ∀ r ∈ articleRoles, 0 ≤ r.weight) :
    0 ≤ feedService.calculateRoleAlignment userRoles articleRoles ∧
    feedService.calculateRoleAlignment userRoles articleRoles ≤ 1 :=
  ⟨le_min (roleAlign_foldl_nonneg userRoles articleRoles 0 le_rfl hu ha) zero_le_one,
   min_le_right _ _⟩

/-- Tag match lies in the unit interval. -/
theorem calculateTagMatch_bounds (topics tags : List String) :
    0 ≤ feedService.calculateTagMatch topics tags ∧
    feedService.calculateTagMatch topics tags ≤ 1 := by
  unfold feedService.calculateTagMatch
  split_ifs with h
  · norm_num
  · constructor
    · positivity
    · rw [div_le_one]
      · have hlen : (topics.filter (fun topic => tags.any (feedService.tagFuzzyMatch topic))).length ≤
            topics.length := List.length_filter_le _ _
        have hmax : topics.length ≤ max topics.length tags.length := le_max_left _ _
        exact_mod_cast le_trans hlen hmax
      · have ht : topics ≠ [] := by
          intro he
          simp [he] at h
        have : 0 < topics.length := List.length_pos.mpr ht
        have : 0 < max topics.length tags.length := lt_of_lt_of_le this (le_max_left _ _)
        exact_mod_cast this

/-- Freshness is always one of the four step values, hence within
[1/5, 1]. -/
theorem calculateFreshness_bounds (now : ℚ) (publishedAt : Option ℚ) :
    1/5 ≤ feedService.calculateFreshness now publishedAt ∧
    feedService.calculateFreshness now publishedAt ≤ 1 := by
  cases publishedAt with
  | none => norm_num [feedService.calculateFreshness]
  | some p =>
    simp only [feedService.calculateFreshness]
    split_ifs <;> norm_num

/-- Engagement lies in the unit interval for nonnegative counters. -/
theorem calculateEngagement_bounds (a : FeedArticle)
    (hv : 0 ≤ a.views.getD 0) (hs : 0 ≤ a.saves.getD 0) :
    0 ≤ feedService.calculateEngagement a ∧ feedService.calculateEngagement a ≤ 1 := by
  unfold feedService.calculateEngagement
  have h1 : 0 ≤ min (a.views.getD 0 / 1000) 1 := le_min (by positivity) zero_le_one
  have h2 : min (a.views.getD 0 / 1000) 1 ≤ 1 := min_le_right _ _
  have h3 : 0 ≤ min (a.saves.getD 0 / 100) 1 := le_min (by positivity) zero_le_one
  have h4 : min (a.saves.getD 0 / 100) 1 ≤ 1 := min_le_right _ _
  constructor <;> nlinarith

/-- Math.round maps [0, 100] into the integers 0..100. -/
theorem roundJS_bounds (x : ℚ) (h0 : 0 ≤ x) (h100 : x ≤ 100) :
    0 ≤ roundJS x ∧ roundJS x ≤ 100 := by
  constructor
  · rw [roundJS, Int.le_floor]
    push_cast
    linarith
  · have hlt : roundJS x < 101 := by
      rw [roundJS, Int.floor_lt]
      push_cast
      linarith
    omega

/-- C6 (confirmed): for weights that are nonnegative (the data model keeps
them in [0, 1]) and nonnegative view/save counters — all other fields
arbitrary, including missing ones — the relevance score is an integer in
[0, 100]. -/
theorem C6_relevance_score_bounds (u : FeedUser) (a : FeedArticle) (now : ℚ)
    (hu : ∀ r ∈ u.dynamicRoles.getD [], 0 ≤ r.weight)
    (ha : ∀ r ∈ a.targetRoles.getD [], 0 ≤ r.weight)
    (hv : 0 ≤ a.views.getD 0) (hs : 0 ≤ a.saves.getD 0) :
    0 ≤ feedService.calculateRelevanceScore u a now ∧
    feedService.calculateRelevanceScore u a now ≤ 100 := by
  unfold feedService.calculateRelevanceScore
  obtain ⟨hr0, hr1⟩ := calculateRoleAlignment_bounds (u.dynamicRoles.getD [])
    (a.targetRoles.getD []) hu ha
  obtain ⟨ht0, ht1⟩ := calculateTagMatch_bounds (u.topics.getD []) (a.tags.getD [])
  obtain ⟨hf0, hf1⟩ := calculateFreshness_bounds now a.publishedAt
  obtain ⟨he0, he1⟩ := calculateEngagement_bounds a hv hs
  apply roundJS_bounds <;> nlinarith

/-- Witness for C6: a user and article with every optional field missing
still score inside [0, 100]. -/
theorem C6_relevance_score_bounds_witness :
    0 ≤ feedService.calculateRelevanceScore ⟨none, none⟩
        ⟨"a1", none, none, none, none, none⟩ 0 ∧
    feedService.calculateRelevanceScore ⟨none, none⟩
        ⟨"a1", none, none, none, none, none⟩ 0 ≤ 100 :=
  C6_relevance_score_bounds ⟨none, none⟩ ⟨"a1", none, none, none, none, none⟩ 0
    (by intro r hr; simp at hr) (by intro r hr; simp at hr) (by simp) (by simp)

/-- C7 (corrected): the score is determined by the user, the article and
the freshness bucket of the evaluation instant.  The function is not a
pure function of user and article alone — it reads the clock through
Date.now() — but whenever two instants give the publish date the same
freshness value, the whole score agrees. -/
theorem C7_deterministic_given_freshness (u : FeedUser) (a : FeedArticle)
    (now now2 : ℚ)
    (h : feedService.calculateFreshness now a.publishedAt =
      feedService.calculateFreshness now2 a.publishedAt) :
    feedService.calculateRelevanceScore u a now =
      feedService.calculateRelevanceScore u a now2 := by
  unfold feedService.calculateRelevanceScore
  rw [h]

/-- Witness for C7: one day apart, an article published at the epoch is in
the same freshness bucket, so the two evaluations agree. -/
theorem C7_deterministic_given_freshness_witness :
    feedService.calculateFreshness 0
        (FeedArticle.mk "a1" none none (some 0) none none).publishedAt =
      feedService.calculateFreshness 86400000
        (FeedArticle.mk "a1" none none (some 0) none none).publishedAt ∧
    feedService.calculateRelevanceScore ⟨none, none⟩
        (FeedArticle.mk "a1" none none (some 0) none none) 0 =
      feedService.calculateRelevanceScore ⟨none, none⟩
        (FeedArticle.mk "a1" none none (some 0) none none) 86400000 := by
  have h : feedService.calculateFreshness 0
      (FeedArticle.mk "a1" none none (some 0) none none).publishedAt =
      feedService.calculateFreshness 86400000
        (FeedArticle.mk "a1" none none (some 0) none none).publishedAt := by
    norm_num [feedService.calculateFreshness]
  exact ⟨h, C7_deterministic_given_freshness ⟨none, none⟩ _ 0 86400000 h⟩

/-- Counterexample for C7 as stated: with the user and article fixed, the
score still changes with the clock — evaluated at the publish instant the
score is 60, evaluated 31 days later it is 44 — so the score is not a
function of the two arguments alone. -/
theorem C7_clock_dependence_counterexample :
    feedService.calculateRelevanceScore ⟨some [⟨"FRONTEND", 1⟩], none⟩
        ⟨"a1", some [⟨"FRONTEND", 1⟩], none, some 0, none, none⟩ 0 ≠
      feedService.calculateRelevanceScore ⟨some [⟨"FRONTEND", 1⟩], none⟩
        ⟨"a1", some [⟨"FRONTEND", 1⟩], none, some 0, none, none⟩ (31 * 86400000) := by
  have h1 : feedService.calculateRelevanceScore ⟨some [⟨"FRONTEND", 1⟩], none⟩
      ⟨"a1", some [⟨"FRONTEND", 1⟩], none, some 0, none, none⟩ 0 = 60 := by
    simp [feedService.calculateRelevanceScore, feedService.calculateRoleAlignment,
      feedService.calculateTagMatch, feedService.calculateFreshness,
      feedService.calculateEngagement, roundJS, findRole, min_def]
    norm_num
  have h2 : feedService.calculateRelevanceScore ⟨some [⟨"FRONTEND", 1⟩], none⟩
      ⟨"a1", some [⟨"FRONTEND", 1⟩], none, some 0, none, none⟩ (31 * 86400000) = 44 := by
    simp [feedService.calculateRelevanceScore, feedService.calculateRoleAlignment,
      feedService.calculateTagMatch, feedService.calculateFreshness,
      feedService.calculateEngagement, roundJS, findRole, min_def]
    norm_num
  rw [h1, h2]
  decide

/-- C8 (corrected): with a strictly positive weighted engagement total,
the gravity-decayed trending score is strictly decreasing in article age;
with all three counters zero both sides are 0, so the unrestricted strict
claim fails. -/
theorem C8_trending_strictly_decays (v s sh h1 h2 : ℝ) (hv : 0 ≤ v) (hs : 0 ≤ s)
    (hsh : 0 ≤ sh) (hraw : 0 < v * 1 + s * 3 + sh * 5) (hh1 : 0 ≤ h1)
    (h12 : h1 < h2) :
    trendingService.calculateScore v s sh h2 < trendingService.calculateScore v s sh h1 := by
  unfold trendingService.calculateScore
  have hp1 : (0 : ℝ) < (h1 + 2) ^ (1.8 : ℝ) :=
    Real.rpow_pos_of_pos (by linarith) _
  have hlt : (h1 + 2) ^ (1.8 : ℝ) < (h2 + 2) ^ (1.8 : ℝ) :=
    Real.rpow_lt_rpow (by linarith) (by linarith) (by norm_num)
  exact div_lt_div_of_pos_left hraw hp1 hlt

/-- Witness for C8: one view, no saves or shares — the score at age 1 hour
is strictly below the score at age 0. -/
theorem C8_trending_strictly_decays_witness :
    trendingService.calculateScore 1 0 0 1 < trendingService.calculateScore 1 0 0 0 :=
  C8_trending_strictly_decays 1 0 0 0 1 (by norm_num) (by norm_num) (by norm_num)
    (by norm_num) (by norm_num) (by norm_num)

/-- Counterexample for C8 as stated: with views = saves = shares = 0 the
score is identically 0, so it is not strictly decreasing in hoursOld. -/
theorem C8_zero_engagement_counterexample :
    ¬ (trendingService.calculateScore 0 0 0 0 > trendingService.calculateScore 0 0 0 1) := by
  have h1 : trendingService.calculateScore 0 0 0 0 = 0 := by
    norm_num [trendingService.calculateScore]
  have h2 : trendingService.calculateScore 0 0 0 1 = 0 := by
    norm_num [trendingService.calculateScore]
  rw [gt_iff_lt, h1, h2]
  exact lt_irrefl 0

/-- The view upsert leaves one matching row: it updates the first match in
place, or appends one when none exists. -/
theorem countViewRows_upsert (u a : String) (n : ℤ) (es : List EngagementRow) :
    countViewRows u a (upsertViewRow u a n es) = max (countViewRows u a es) 1 := by
  induction es with
  | nil => simp [upsertViewRow, countViewRows, isViewRowOf]
  | cons e es ih =>
    cases he : isViewRowOf u a e
    · simp only [upsertViewRow, he, Bool.false_eq_true, if_false]
      simp only [countViewRows, List.filter_cons, he, Bool.false_eq_true, if_false] at *
      exact ih
    · simp only [upsertViewRow, he, if_true]
      have hupd : isViewRowOf u a { e with updatedAt := n } = true := he
      simp only [countViewRows, List.filter_cons, he, hupd, if_true, List.length_cons]
      omega

/-- Incrementing the views of a present article raises its counter by
exactly one. -/
theorem viewsOf_incViewsFirst (a : String) (arts : List (String × ℕ))
    (h : (arts.any (fun p => p.1 == a)) = true) :
    viewsOf a (incViewsFirst a arts) = viewsOf a arts + 1 := by
  induction arts with
  | nil => simp at h
  | cons x xs ih =>
    cases hx : (x.1 == a)
    · simp only [incViewsFirst, hx, Bool.false_eq_true, if_false]
      simp only [viewsOf, lookupBy, hx, Bool.false_eq_true, if_false]
      apply ih
      simpa [hx] using h
    · simp only [incViewsFirst, hx, if_true]
      simp only [viewsOf, lookupBy, hx, if_true, Option.getD_some]

/-- The increment only changes a counter value, so presence of the
article id is preserved. -/
theorem any_incViewsFirst (a : String) (arts : List (String × ℕ)) :
    ((incViewsFirst a arts).any (fun p => p.1 == a)) =
      (arts.any (fun p => p.1 == a)) := by
  induction arts with
  | nil => rfl
  | cons x xs ih =>
    cases hx : (x.1 == a)
    · simp only [incViewsFirst, hx, Bool.false_eq_true, if_false, List.any_cons, ih]
    · simp only [incViewsFirst, hx, if_true, List.any_cons]

/-- C9 (confirmed): starting from a state with no VIEW row for the pair
and with the article present, two viewArticle calls leave exactly one VIEW
engagement row for (user, article) — the second call only touches its
timestamp — while the views counter of the article rises by 2. -/
theorem C9_view_upsert_idempotent (db : EngagementDB) (u a : String) (n1 n2 : ℤ)
    (h0 : countViewRows u a db.engagements = 0)
    (ha : (db.articles.any (fun p => p.1 == a)) = true) :
    countViewRows u a
        (engagementService.viewArticle u a n2
          (engagementService.viewArticle u a n1 db)).engagements = 1 ∧
    viewsOf a
        (engagementService.viewArticle u a n2
          (engagementService.viewArticle u a n1 db)).articles =
      viewsOf a db.articles + 2 := by
  constructor
  · simp [engagementService.viewArticle, countViewRows_upsert, h0]
  · have ha2 : (((incViewsFirst a db.articles)).any (fun p => p.1 == a)) = true := by
      rw [any_incViewsFirst]
      exact ha
    simp only [engagementService.viewArticle]
    rw [viewsOf_incViewsFirst a _ ha2, viewsOf_incViewsFirst a _ ha]

/-- Witness for C9: an empty engagement log and one article with 5 views;
after two views by u1 there is one VIEW row and the counter reads 7. -/
theorem C9_view_upsert_idempotent_witness :
    countViewRows "u1" "a1"
        (engagementService.viewArticle "u1" "a1" 2
          (engagementService.viewArticle "u1" "a1" 1 ⟨[], [("a1", 5)]⟩)).engagements = 1 ∧
    viewsOf "a1"
        (engagementService.viewArticle "u1" "a1" 2
          (engagementService.viewArticle "u1" "a1" 1 ⟨[], [("a1", 5)]⟩)).articles =
      viewsOf "a1" [("a1", 5)] + 2 :=
  C9_view_upsert_idempotent ⟨[], [("a1", 5)]⟩ "u1" "a1" 1 2 (by simp [countViewRows])
    (by simp)

/-- C10 (corrected): the two trending implementations share the cache key
trending:articles:{days}days, and every article eligible for the feed
variant (quality at least 7) is eligible for the trending variant (quality
at least 5), but the converse fails and the orderings differ, so the two
do not return the same ranked list: a single active quality-5 article
published in the window is returned by computeTrending and filtered out by
feedService.getTrending. -/
theorem C10_trending_implementations_diverge :
    (∀ (now days : ℚ) (a : TrendArticle),
        feedService.feedTrendingEligible now days a = true →
        trendingService.trendingEligible now days a = true) ∧
    trendingCacheKey 7 = "trending:articles:7days" ∧
    feedService.getTrendingCompute [⟨"a1", 0, 5, true, 10, 0, 0⟩] 0 7 10 ≠
      trendingService.computeTrending [⟨"a1", 0, 5, true, 10, 0, 0⟩] 0 7 10 := by
  refine ⟨?_, by decide, ?_⟩
  · intro now days a h
    simp only [feedService.feedTrendingEligible, Bool.and_eq_true,
      decide_eq_true_eq] at h
    obtain ⟨⟨h1, h2⟩, h3⟩ := h
    simp only [trendingService.trendingEligible, Bool.and_eq_true, decide_eq_true_eq]
    exact ⟨⟨h1, h3⟩, by linarith⟩
  · have hL : feedService.getTrendingCompute [⟨"a1", 0, 5, true, 10, 0, 0⟩] 0 7 10 = [] := by
      norm_num [feedService.getTrendingCompute, feedService.feedTrendingEligible, sortWith]
    have hR : trendingService.computeTrending [⟨"a1", 0, 5, true, 10, 0, 0⟩] 0 7 10 =
        [⟨"a1", 0, 5, true, 10, 0, 0⟩] := by
      norm_num [trendingService.computeTrending, trendingService.trendingEligible,
        sortWith, insertSorted]
    rw [hL, hR]
    simp

/-- Witness for C10: a quality-7 article eligible for the feed variant is,
by the inclusion, eligible for the trending variant as well. -/
theorem C10_trending_implementations_diverge_witness :
    trendingService.trendingEligible 0 7 ⟨"w1", 0, 7, true, 0, 0, 0⟩ = true :=
  C10_trending_implementations_diverge.1 0 7 ⟨"w1", 0, 7, true, 0, 0, 0⟩
    (by norm_num [feedService.feedTrendingEligible])

/-- Counterexample for C10 as stated: on the one-article corpus with
qualityScore 5 the two implementations return different lists — the feed
variant returns nothing, the trending variant returns the article. -/
theorem C10_trending_agreement_counterexample :
    feedService.getTrendingCompute [⟨"a1", 0, 5, true, 10, 0, 0⟩] 0 7 10 ≠
      trendingService.computeTrending [⟨"a1", 0, 5, true, 10, 0, 0⟩] 0 7 10 := by
  have hL : feedService.getTrendingCompute [⟨"a1", 0, 5, true, 10, 0, 0⟩] 0 7 10 = [] := by
    norm_num [feedService.getTrendingCompute, feedService.feedTrendingEligible, sortWith]
  have hR : trendingService.computeTrending [⟨"a1", 0, 5, true, 10, 0, 0⟩] 0 7 10 =
      [⟨"a1", 0, 5, true, 10, 0, 0⟩] := by
    norm_num [trendingService.computeTrending, trendingService.trendingEligible,
      sortWith, insertSorted]
  rw [hL, hR]
  simp
